import Mathlib

/-
Verification of the pdfomania OCR server against its specification.

The Python sources (src/server/main.py, src/server/server.py) are embedded
shallowly: Python strings are lists of characters, JSON-like values are an
inductive type, floats are rationals, exceptions become Except values.
Each definition mirrors one place in the source, noted in its doc comment.
-/

/-! ### Model of Python str.strip over lists of characters -/

/-- Whitespace test used by the model of Python str.strip. -/
def isWS (c : Char) : Bool := c.isWhitespace

/-- Model of dropping leading whitespace (Python lstrip). -/
def pyStripL (l : List Char) : List Char := l.dropWhile isWS

/-- Model of dropping trailing whitespace (Python rstrip). -/
def pyStripR (l : List Char) : List Char := (l.reverse.dropWhile isWS).reverse

/-- Model of Python str.strip as used throughout the server code. -/
def pyStrip (l : List Char) : List Char := pyStripR (pyStripL l)

/-- A list that is nonempty and starts with a non-whitespace character. -/
def anchored (l : List Char) : Bool :=
  match l with
  | [] => false
  | c :: _ => !isWS c

theorem anchored_append (u v : List Char) (hu : u ≠ []) :
    anchored (u ++ v) = anchored u := by
  cases u with
  | nil => exact absurd rfl hu
  | cons c t => rfl

theorem pyStripL_of_anchored (l : List Char) (h : anchored l = true) :
    pyStripL l = l := by
  cases l with
  | nil => simp [anchored] at h
  | cons c t =>
    simp only [anchored, Bool.not_eq_true'] at h
    simp [pyStripL, List.dropWhile_cons, h]

theorem pyStripR_of_anchored_rev (l : List Char) (h : anchored l.reverse = true) :
    pyStripR l = l := by
  show (l.reverse.dropWhile isWS).reverse = l
  rw [show l.reverse.dropWhile isWS = pyStripL l.reverse from rfl,
    pyStripL_of_anchored _ h, List.reverse_reverse]

theorem pyStrip_of_anchored (l : List Char) (h1 : anchored l = true)
    (h2 : anchored l.reverse = true) : pyStrip l = l := by
  unfold pyStrip
  rw [pyStripL_of_anchored l h1, pyStripR_of_anchored_rev l h2]

theorem pyStripL_nil_or_anchored (l : List Char) :
    pyStripL l = [] ∨ anchored (pyStripL l) = true := by
  induction l with
  | nil => exact Or.inl rfl
  | cons c t ih =>
    by_cases h : isWS c = true
    · simpa [pyStripL, List.dropWhile_cons, h] using ih
    · have hb : isWS c = false := by revert h; cases isWS c <;> simp
      right
      simp [pyStripL, List.dropWhile_cons, hb, anchored]

theorem dropWhile_append_single (p : Char → Bool) (l : List Char) (c : Char) :
    List.dropWhile p (l ++ [c]) =
      if List.dropWhile p l = [] then List.dropWhile p [c]
      else List.dropWhile p l ++ [c] := by
  induction l with
  | nil => simp
  | cons a t ih =>
    by_cases h : p a = true
    · simpa [List.dropWhile_cons, h] using ih
    · have hb : p a = false := by revert h; cases p a <;> simp
      simp [List.dropWhile_cons, hb]

theorem pyStripR_cons (c : Char) (t : List Char) :
    pyStripR (c :: t) = [] ∨ ∃ u, pyStripR (c :: t) = c :: u := by
  unfold pyStripR
  rw [List.reverse_cons, dropWhile_append_single]
  by_cases h : List.dropWhile isWS t.reverse = []
  · rw [if_pos h]
    by_cases hc : isWS c = true
    · left
      simp [List.dropWhile_cons, hc]
    · have hb : isWS c = false := by revert hc; cases isWS c <;> simp
      right
      exact ⟨[], by simp [List.dropWhile_cons, hb]⟩
  · rw [if_neg h]
    right
    exact ⟨(List.dropWhile isWS t.reverse).reverse, by simp⟩

theorem pyStrip_anchors (l : List Char) (h : pyStrip l ≠ []) :
    anchored (pyStrip l) = true ∧ anchored (pyStrip l).reverse = true := by
  rcases pyStripL_nil_or_anchored l with hm | hm
  · exact absurd (by simp [pyStrip, hm, pyStripR]) h
  · rcases hl : pyStripL l with _ | ⟨c, t⟩
    · rw [hl] at hm; simp [anchored] at hm
    · rw [hl] at hm
      have hstrip : pyStrip l = pyStripR (c :: t) := by rw [pyStrip, hl]
      constructor
      · rcases pyStripR_cons c t with hr | ⟨u, hr⟩
        · exact absurd (hstrip.trans hr) h
        · rw [hstrip, hr]
          simpa [anchored] using hm
      · have hrev : (pyStrip l).reverse = pyStripL (c :: t).reverse := by
          rw [hstrip]; simp [pyStripR, pyStripL]
        rw [hrev]
        rcases pyStripL_nil_or_anchored (c :: t).reverse with hz | hz
        · exfalso
          apply h
          rw [hstrip]
          show (List.dropWhile isWS (c :: t).reverse).reverse = []
          rw [show List.dropWhile isWS (c :: t).reverse = pyStripL (c :: t).reverse from rfl, hz]
          rfl
        · exact hz

theorem pyStrip_idem (l : List Char) : pyStrip (pyStrip l) = pyStrip l := by
  by_cases h : pyStrip l = []
  · rw [h]; rfl
  · obtain ⟨h1, h2⟩ := pyStrip_anchors l h
    exact pyStrip_of_anchored _ h1 h2

/-- Model of joining with a single space, as Python " ".join. -/
def joinSp : List (List Char) → List Char
  | [] => []
  | [x] => x
  | x :: y :: rest => x ++ ' ' :: joinSp (y :: rest)

theorem joinSp_anchors (ps : List (List Char))
    (h : ∀ p ∈ ps, p ≠ [] ∧ anchored p = true ∧ anchored p.reverse = true)
    (hne : ps ≠ []) :
    joinSp ps ≠ [] ∧ anchored (joinSp ps) = true ∧
      anchored (joinSp ps).reverse = true := by
  induction ps with
  | nil => exact absurd rfl hne
  | cons x rest ih =>
    cases rest with
    | nil => simpa [joinSp] using h x (by simp)
    | cons y rest2 =>
      obtain ⟨hx1, hx2, _⟩ := h x (by simp)
      obtain ⟨hj1, _, hj3⟩ := ih (fun p hp => h p (by simp [hp])) (by simp)
      refine ⟨by simp [joinSp, hx1], ?_, ?_⟩
      · rw [joinSp, anchored_append _ _ hx1]
        exact hx2
      · have hrw : (joinSp (x :: y :: rest2)).reverse
            = (joinSp (y :: rest2)).reverse ++ ([' '] ++ x.reverse) := by
          simp [joinSp]
        rw [hrw, anchored_append _ _ (by simpa using hj1)]
        exact hj3

theorem pyStrip_joinSp (ps : List (List Char))
    (h : ∀ p ∈ ps, p ≠ [] ∧ anchored p = true ∧ anchored p.reverse = true)
    (hne : ps ≠ []) : pyStrip (joinSp ps) = joinSp ps := by
  obtain ⟨-, h1, h2⟩ := joinSp_anchors ps h hne
  exact pyStrip_of_anchored _ h1 h2

theorem stripped_piece (l : List Char) (h : pyStrip l ≠ []) :
    pyStrip l ≠ [] ∧ anchored (pyStrip l) = true ∧
      anchored (pyStrip l).reverse = true :=
  ⟨h, (pyStrip_anchors l h).1, (pyStrip_anchors l h).2⟩

/-! ### OCR rows and the /ocr token loop (main.py lines 67 to 80) -/

/-- One per-word record of the pytesseract image_to_data DICT output. The
conf entry is a decimal integer string, or the empty string; it is modeled
by its integer value, with none for the empty string, so that the source
test against the strings "" and "-1" becomes the test in parsedConf. -/
structure TessRow where
  text : List Char
  conf : Option Int
  left : Int
  top : Int
  width : Int
  height : Int
  block_num : Int
  par_num : Int
  line_num : Int
deriving DecidableEq

/-- A retained token of the /ocr response (main.py lines 76 to 80). -/
structure Token where
  page : Int
  text : List Char
  x0 : Int
  y0 : Int
  x1 : Int
  y1 : Int
deriving DecidableEq

/-- Confidence normalization of main.py line 71: int of the raw entry when
it is neither the empty string nor "-1", else the sentinel -1. -/
def parsedConf : Option Int → Int
  | none => -1
  | some n => if n = -1 then -1 else n

/-- The token loop of the Flask /ocr endpoint (main.py lines 67 to 80 and
the identical copy at server.py lines 168 to 176): strip the text,
normalize the confidence, skip the row when the stripped text is empty or
the confidence is below 50, otherwise append a token whose box is
(left, top, left+width, top+height). -/
def ocrTokens (page : Int) : List TessRow → List Token
  | [] => []
  | r :: rest =>
    if pyStrip r.text = [] ∨ parsedConf r.conf < 50 then ocrTokens page rest
    else ⟨page, pyStrip r.text, r.left, r.top, r.left + r.width, r.top + r.height⟩
      :: ocrTokens page rest

/-- The token loop of the FastAPI /ocr endpoint (server.py lines 25 to 32),
which filters only on empty text and applies no confidence gate. -/
def fastapiOcrTokens (page : Int) : List TessRow → List Token
  | [] => []
  | r :: rest =>
    if pyStrip r.text = [] then fastapiOcrTokens page rest
    else ⟨page, pyStrip r.text, r.left, r.top, r.left + r.width, r.top + r.height⟩
      :: fastapiOcrTokens page rest

/-- Specification-side description of the Flask /ocr row filter: keep
exactly the rows with nonempty stripped text and confidence at least 50. -/
def keptToken (page : Int) (r : TessRow) : Option Token :=
  if pyStrip r.text ≠ [] ∧ 50 ≤ parsedConf r.conf
  then some ⟨page, pyStrip r.text, r.left, r.top, r.left + r.width, r.top + r.height⟩
  else none

/-- Specification-side description of the FastAPI /ocr row filter: keep
exactly the rows with nonempty stripped text. -/
def fastapiKeptToken (page : Int) (r : TessRow) : Option Token :=
  if pyStrip r.text ≠ []
  then some ⟨page, pyStrip r.text, r.left, r.top, r.left + r.width, r.top + r.height⟩
  else none

/-- C1 counterexample: an OCR result with nonempty text and the sentinel
(unavailable) confidence, parsed to -1. The claim asserts such a result is
retained; the code discards it, because the gate also fires on the
sentinel, -1 being below 50. -/
theorem C1_counterexample :
    pyStrip ['O', 'C', 'R'] = ['O', 'C', 'R'] ∧
    parsedConf (some (-1)) = -1 ∧
    ocrTokens 1 [⟨['O', 'C', 'R'], some (-1), 0, 0, 5, 7, 1, 1, 1⟩] = [] :=
  ⟨rfl, rfl, rfl⟩

/-- C1 (amended): the Flask /ocr token extraction emits exactly the rows
whose stripped text is nonempty and whose normalized confidence is at least
50; rows carrying the unavailable-confidence sentinel -1 are discarded
along with low-confidence rows, and every emitted Token has nonempty,
already-stripped text. The FastAPI /ocr variant cited by the claim applies
only the text filter. -/
theorem C1_amended_tokens (page : Int) (rows : List TessRow) :
    ocrTokens page rows = rows.filterMap (keptToken page) ∧
    fastapiOcrTokens page rows = rows.filterMap (fastapiKeptToken page) ∧
    ∀ t ∈ ocrTokens page rows, t.text ≠ [] ∧ pyStrip t.text = t.text := by
  refine ⟨?_, ?_, ?_⟩
  · induction rows with
    | nil => rfl
    | cons r rest ih =>
      by_cases h : pyStrip r.text = [] ∨ parsedConf r.conf < 50
      · have hB : ¬(pyStrip r.text ≠ [] ∧ 50 ≤ parsedConf r.conf) := by
          rcases h with h | h
          · exact fun hb => absurd h hb.1
          · exact fun hb => absurd hb.2 (not_le.mpr h)
        simp [ocrTokens, List.filterMap_cons, keptToken, h, hB, ih]
      · have hB : pyStrip r.text ≠ [] ∧ 50 ≤ parsedConf r.conf := by
          push_neg at h
          exact ⟨h.1, h.2⟩
        simp [ocrTokens, List.filterMap_cons, keptToken, h, hB.1, hB.2, ih]
  · induction rows with
    | nil => rfl
    | cons r rest ih =>
      by_cases h : pyStrip r.text = []
      · simp [fastapiOcrTokens, List.filterMap_cons, fastapiKeptToken, h, ih]
      · simp [fastapiOcrTokens, List.filterMap_cons, fastapiKeptToken, h, ih]
  · induction rows with
    | nil => intro t ht; simp [ocrTokens] at ht
    | cons r rest ih =>
      intro t ht
      by_cases h : pyStrip r.text = [] ∨ parsedConf r.conf < 50
      · rw [ocrTokens, if_pos h] at ht
        exact ih t ht
      · rw [ocrTokens, if_neg h] at ht
        push_neg at h
        rcases List.mem_cons.mp ht with hEq | hMem
        · subst hEq
          exact ⟨h.1, pyStrip_idem r.text⟩
        · exact ih t hMem

/-- C1 witness: the amended theorem applied to one concrete row list, with
the membership hypothesis discharged at a concrete token. -/
theorem C1_amended_witness :
    ocrTokens 1 [⟨['h', 'i'], some 96, 2, 3, 4, 5, 1, 1, 1⟩]
        = [(⟨['h', 'i'], some 96, 2, 3, 4, 5, 1, 1, 1⟩ : TessRow)].filterMap (keptToken 1) ∧
    ((⟨1, ['h', 'i'], 2, 3, 6, 8⟩ : Token).text ≠ [] ∧
      pyStrip (⟨1, ['h', 'i'], 2, 3, 6, 8⟩ : Token).text
        = (⟨1, ['h', 'i'], 2, 3, 6, 8⟩ : Token).text) :=
  ⟨(C1_amended_tokens 1 [⟨['h', 'i'], some 96, 2, 3, 4, 5, 1, 1, 1⟩]).1,
    (C1_amended_tokens 1 [⟨['h', 'i'], some 96, 2, 3, 4, 5, 1, 1, 1⟩]).2.2
      ⟨1, ['h', 'i'], 2, 3, 6, 8⟩ (by decide)⟩

/-! ### Image upscaling (main.py lines 44 to 47) -/

/-- Python int() truncation toward zero on a rational. -/
def pyTrunc (q : ℚ) : Int := if 0 ≤ q then ⌊q⌋ else -⌊-q⌋

/-- The scale factor of main.py line 45: max(1.0, TARGET_DPI / 96.0). -/
def tessScale (dpi : ℕ) : ℚ := max 1 ((dpi : ℚ) / 96)

/-- The resize of main.py lines 44 to 47 (and server.py lines 153 to 156):
when the scale exceeds 1.01 the working buffer is resized to
(int(w0*scale), int(h0*scale)); otherwise no resize is performed. -/
def upscaledDims (w h : ℕ) (dpi : ℕ) : Int × Int :=
  if (101 : ℚ) / 100 < tessScale dpi
  then (pyTrunc ((w : ℚ) * tessScale dpi), pyTrunc ((h : ℚ) * tessScale dpi))
  else ((w : Int), (h : Int))

theorem tessScale_300 : tessScale 300 = 25 / 8 := by
  unfold tessScale
  rw [max_eq_right (by norm_num)]
  norm_num

/-- C2 counterexample: a 200 by 100 image at TARGET_DPI 300 scales by
25/8 = 3.125; the height becomes int(100*3.125) = int(312.5) = 312, not
the 313 the claim asserts. -/
theorem C2_counterexample : upscaledDims 200 100 300 ≠ (625, 313) := by
  unfold upscaledDims
  rw [tessScale_300, if_pos (show (101 : ℚ) / 100 < 25 / 8 by norm_num)]
  unfold pyTrunc
  rw [if_pos (show (0 : ℚ) ≤ ((200 : ℕ) : ℚ) * (25 / 8) by norm_num),
    if_pos (show (0 : ℚ) ≤ ((100 : ℕ) : ℚ) * (25 / 8) by norm_num)]
  have h1 : ⌊((200 : ℕ) : ℚ) * (25 / 8)⌋ = 625 := by norm_num
  have h2 : ⌊((100 : ℕ) : ℚ) * (25 / 8)⌋ = 312 := by norm_num
  rw [h1, h2]
  decide

/-- C2 (amended): when the scale s = max(1, TARGET_DPI/96) exceeds 1.01
the buffer dimensions are the floor (Python int truncation) of w*s and of
h*s, not their rounding; a 200 by 100 image at TARGET_DPI 300 yields a
625 by 312 buffer; when s is at most 1.01 no resize is performed. -/
theorem C2_amended_dims (w h dpi : ℕ) :
    (tessScale dpi ≤ 101 / 100 → upscaledDims w h dpi = ((w : Int), (h : Int))) ∧
    ((101 : ℚ) / 100 < tessScale dpi →
      upscaledDims w h dpi = (⌊(w : ℚ) * tessScale dpi⌋, ⌊(h : ℚ) * tessScale dpi⌋)) ∧
    upscaledDims 200 100 300 = (625, 312) := by
  have hsc : (0 : ℚ) ≤ tessScale dpi := le_trans zero_le_one (le_max_left 1 _)
  refine ⟨?_, ?_, ?_⟩
  · intro hle
    unfold upscaledDims
    rw [if_neg (not_lt.mpr hle)]
  · intro hlt
    unfold upscaledDims
    rw [if_pos hlt]
    unfold pyTrunc
    rw [if_pos (mul_nonneg (Nat.cast_nonneg w) hsc),
      if_pos (mul_nonneg (Nat.cast_nonneg h) hsc)]
  · unfold upscaledDims
    rw [tessScale_300, if_pos (show (101 : ℚ) / 100 < 25 / 8 by norm_num)]
    unfold pyTrunc
    rw [if_pos (show (0 : ℚ) ≤ ((200 : ℕ) : ℚ) * (25 / 8) by norm_num),
      if_pos (show (0 : ℚ) ≤ ((100 : ℕ) : ℚ) * (25 / 8) by norm_num)]
    have h1 : ⌊((200 : ℕ) : ℚ) * (25 / 8)⌋ = 625 := by norm_num
    have h2 : ⌊((100 : ℕ) : ℚ) * (25 / 8)⌋ = 312 := by norm_num
    rw [h1, h2]

/-- C2 witness: the amended theorem at dpi 96 (scale 1, no resize) and at
dpi 300 (scale 25/8, resize taken). -/
theorem C2_amended_witness :
    upscaledDims 640 480 96 = ((640 : Int), (480 : Int)) ∧
    upscaledDims 200 100 300
      = (⌊(200 : ℚ) * tessScale 300⌋, ⌊(100 : ℚ) * tessScale 300⌋) := by
  constructor
  · exact (C2_amended_dims 640 480 96).1 (by norm_num [tessScale])
  · exact (C2_amended_dims 200 100 300).2.1 (by rw [tessScale_300]; norm_num)

/-! ### The docaiify line grouper (server.py lines 61 to 110) -/

/-- The grouping key of server.py line 76: (block_num, par_num, line_num). -/
def rkey (r : TessRow) : Int × Int × Int := (r.block_num, r.par_num, r.line_num)

/-- Row retention test of server.py lines 74 and 75: nonempty stripped text. -/
def keptRow (r : TessRow) : Bool := !(pyStrip r.text).isEmpty

/-- One element of the docaiify response (server.py lines 88 to 92). -/
structure Element where
  content : List Char
  x : Int
  y : Int
  width : Int
  height : Int
  page : Int
deriving DecidableEq

/-- Model of by_line.setdefault(key, []).append(i) on an insertion-ordered
dict held as an association list: append to the entry of the key when it is
present, else add a new entry at the end. -/
def insertTok (acc : List ((Int × Int × Int) × List TessRow)) (k : Int × Int × Int)
    (r : TessRow) : List ((Int × Int × Int) × List TessRow) :=
  match acc with
  | [] => [(k, [r])]
  | (k0, g) :: rest =>
    if k0 = k then (k0, g ++ [r]) :: rest else (k0, g) :: insertTok rest k r

/-- The grouping loop of server.py lines 72 to 77: rows with empty stripped
text are skipped; every other row is appended to the group of its key. -/
def byLineAux (acc : List ((Int × Int × Int) × List TessRow)) :
    List TessRow → List ((Int × Int × Int) × List TessRow)
  | [] => acc
  | r :: rest =>
    if pyStrip r.text = [] then byLineAux acc rest
    else byLineAux (insertTok acc (rkey r) r) rest

/-- The grouped rows of one page, in first-seen key order. -/
def byLine (rows : List TessRow) : List ((Int × Int × Int) × List TessRow) :=
  byLineAux [] rows

/-- Model of a Python dict lookup on the association list. -/
def lookupGroup (acc : List ((Int × Int × Int) × List TessRow))
    (k : Int × Int × Int) : Option (List TessRow) :=
  match acc with
  | [] => none
  | (k0, g) :: rest => if k0 = k then some g else lookupGroup rest k

/-- Combined effect on one lookup of consuming more rows: the rows with the
key are appended, and a key appearing for the first time gets a new group. -/
def extGroup (o : Option (List TessRow)) (l : List TessRow) : Option (List TessRow) :=
  match o with
  | some g => some (g ++ l)
  | none => if l = [] then none else some l

/-- The per-group element construction of server.py lines 78 to 92: the box
is (min left, min top, max left+width, max top+height) over the group, the
content is the stripped member texts joined by single spaces and stripped
again, and a group whose content is empty is dropped. An empty group never
reaches this code in Python (min of an empty list would raise); it is
mapped to none here, and byLine only produces nonempty groups. -/
def elemOfGroup (page : Int) (g : List TessRow) : Option Element :=
  match g with
  | [] => none
  | r :: rs =>
    let x0 := rs.foldl (fun m s => min m s.left) r.left
    let y0 := rs.foldl (fun m s => min m s.top) r.top
    let x1 := rs.foldl (fun m s => max m (s.left + s.width)) (r.left + r.width)
    let y1 := rs.foldl (fun m s => max m (s.top + s.height)) (r.top + r.height)
    let content := pyStrip (joinSp ((r :: rs).map (fun s => pyStrip s.text)))
    if content = [] then none
    else some ⟨content, x0, y0, x1 - x0, y1 - y0, page⟩

/-- The element list of one docaiify page (server.py lines 78 to 92). -/
def docaiifyElements (page : Int) (rows : List TessRow) : List Element :=
  (byLine rows).filterMap (fun kg => elemOfGroup page kg.2)

/-- Specification-side description of first-seen key order: the distinct
keys of the rows with nonempty stripped text, each at the position of the
first row carrying it, relative to the keys already seen. -/
def firstSeenKeys (seen : List (Int × Int × Int)) :
    List TessRow → List (Int × Int × Int)
  | [] => []
  | r :: rest =>
    if pyStrip r.text = [] then firstSeenKeys seen rest
    else if rkey r ∈ seen then firstSeenKeys seen rest
    else rkey r :: firstSeenKeys (seen ++ [rkey r]) rest

theorem insertTok_keys (acc : List ((Int × Int × Int) × List TessRow))
    (k : Int × Int × Int) (r : TessRow) :
    (insertTok acc k r).map Prod.fst =
      if k ∈ acc.map Prod.fst then acc.map Prod.fst
      else acc.map Prod.fst ++ [k] := by
  induction acc with
  | nil => simp [insertTok]
  | cons p rest ih =>
    obtain ⟨k0, g⟩ := p
    by_cases h : k0 = k
    · subst h
      simp [insertTok]
    · have h2 : ¬(k = k0) := fun hEq => h hEq.symm
      by_cases hm : k ∈ rest.map Prod.fst
      · simp [insertTok, h, ih, hm, h2]
      · simp [insertTok, h, ih, hm, h2]

theorem lookupGroup_insertTok (acc : List ((Int × Int × Int) × List TessRow))
    (k k1 : Int × Int × Int) (r : TessRow) :
    lookupGroup (insertTok acc k r) k1 =
      if k1 = k then some (((lookupGroup acc k).getD []) ++ [r])
      else lookupGroup acc k1 := by
  induction acc with
  | nil =>
    by_cases h : k1 = k
    · simp [insertTok, lookupGroup, h]
    · have h2 : ¬(k = k1) := fun hEq => h hEq.symm
      simp [insertTok, lookupGroup, h, h2]
  | cons p rest ih =>
    obtain ⟨k0, g⟩ := p
    by_cases h : k0 = k
    · subst h
      by_cases h1 : k1 = k0
      · subst h1
        simp [insertTok, lookupGroup]
      · have h2 : ¬(k0 = k1) := fun hEq => h1 hEq.symm
        simp [insertTok, lookupGroup, h1, h2]
    · by_cases h1 : k0 = k1
      · subst h1
        simp [insertTok, lookupGroup, h]
      · simp [insertTok, lookupGroup, h, h1, ih]

theorem byLineAux_lookup (rows : List TessRow) :
    ∀ (acc : List ((Int × Int × Int) × List TessRow)) (k : Int × Int × Int),
      lookupGroup (byLineAux acc rows) k =
        extGroup (lookupGroup acc k)
          (rows.filter (fun r => keptRow r && decide (rkey r = k))) := by
  induction rows with
  | nil =>
    intro acc k
    cases h : lookupGroup acc k <;> simp [byLineAux, extGroup, h]
  | cons r rest ih =>
    intro acc k
    by_cases hk : pyStrip r.text = []
    · have hkept : keptRow r = false := by
        simp [keptRow, List.isEmpty_iff, hk]
      simp only [byLineAux, if_pos hk, List.filter_cons, hkept, Bool.false_and]
      exact ih acc k
    · have hkept : keptRow r = true := by
        simp [keptRow, List.isEmpty_iff, hk]
      simp only [byLineAux, if_neg hk]
      rw [ih (insertTok acc (rkey r) r) k, lookupGroup_insertTok]
      by_cases hkey : k = rkey r
      · have hkey2 : rkey r = k := hkey.symm
        simp only [List.filter_cons, hkept, hkey2, decide_True, Bool.and_self,
          if_pos hkey]
        cases h : lookupGroup acc k <;> simp [extGroup, h]
      · have hkey2 : ¬(rkey r = k) := fun hEq => hkey hEq.symm
        simp [List.filter_cons, hkept, hkey2, if_neg hkey]

theorem byLineAux_keys (rows : List TessRow) :
    ∀ acc, (byLineAux acc rows).map Prod.fst
      = acc.map Prod.fst ++ firstSeenKeys (acc.map Prod.fst) rows := by
  induction rows with
  | nil => intro acc; simp [byLineAux, firstSeenKeys]
  | cons r rest ih =>
    intro acc
    by_cases hk : pyStrip r.text = []
    · simp only [byLineAux, if_pos hk]
      rw [ih acc]
      simp [firstSeenKeys, hk]
    · simp only [byLineAux, if_neg hk]
      rw [ih (insertTok acc (rkey r) r), insertTok_keys]
      by_cases hm : rkey r ∈ acc.map Prod.fst
      · rw [if_pos hm]
        simp [firstSeenKeys, hk, hm]
      · rw [if_neg hm]
        simp [firstSeenKeys, hk, hm]

theorem firstSeenKeys_nodup (rows : List TessRow) :
    ∀ seen, (firstSeenKeys seen rows).Nodup ∧
      ∀ k ∈ firstSeenKeys seen rows, k ∉ seen := by
  induction rows with
  | nil => intro seen; simp [firstSeenKeys]
  | cons r rest ih =>
    intro seen
    by_cases hk : pyStrip r.text = []
    · simpa [firstSeenKeys, hk] using ih seen
    · by_cases hm : rkey r ∈ seen
      · simpa [firstSeenKeys, hk, hm] using ih seen
      · obtain ⟨ihn, ihd⟩ := ih (seen ++ [rkey r])
        have hni : rkey r ∉ firstSeenKeys (seen ++ [rkey r]) rest := by
          intro hmem
          exact (ihd _ hmem) (by simp)
        constructor
        · simp only [firstSeenKeys, if_neg hk, if_neg hm]
          exact List.nodup_cons.mpr ⟨hni, ihn⟩
        · intro k hkmem
          simp only [firstSeenKeys, if_neg hk, if_neg hm] at hkmem
          rcases List.mem_cons.mp hkmem with hEq | hMem
          · subst hEq; exact hm
          · intro hin
            exact (ihd k hMem) (by simp [hin])

theorem lookupGroup_of_mem (acc : List ((Int × Int × Int) × List TessRow))
    (k : Int × Int × Int) (g : List TessRow)
    (hnd : (acc.map Prod.fst).Nodup) (hm : (k, g) ∈ acc) :
    lookupGroup acc k = some g := by
  induction acc with
  | nil => simp at hm
  | cons p rest ih =>
    obtain ⟨k0, g0⟩ := p
    rcases List.mem_cons.mp hm with hEq | hMem
    · injection hEq with h1 h2
      subst h1
      subst h2
      simp [lookupGroup]
    · have hne : k0 ≠ k := by
        intro hEq
        subst hEq
        have hk : k0 ∈ rest.map Prod.fst := List.mem_map.mpr ⟨(k0, g), hMem, rfl⟩
        exact (List.nodup_cons.mp hnd).1 hk
      simp only [lookupGroup, if_neg hne]
      exact ih (List.nodup_cons.mp hnd).2 hMem

theorem byLine_keys (rows : List TessRow) :
    (byLine rows).map Prod.fst = firstSeenKeys [] rows := by
  simpa [byLine] using byLineAux_keys rows []

theorem byLine_keys_nodup (rows : List TessRow) :
    ((byLine rows).map Prod.fst).Nodup := by
  rw [byLine_keys]
  exact (firstSeenKeys_nodup rows []).1

theorem byLine_groups (rows : List TessRow) (k : Int × Int × Int)
    (g : List TessRow) (hm : (k, g) ∈ byLine rows) :
    g = rows.filter (fun r => keptRow r && decide (rkey r = k)) ∧ g ≠ [] := by
  have hl : lookupGroup (byLine rows) k = some g :=
    lookupGroup_of_mem _ _ _ (byLine_keys_nodup rows) hm
  have hc := byLineAux_lookup rows [] k
  rw [show byLineAux [] rows = byLine rows from rfl, hl] at hc
  simp only [lookupGroup, extGroup] at hc
  by_cases hf : rows.filter (fun r => keptRow r && decide (rkey r = k)) = []
  · rw [if_pos hf] at hc
    exact absurd hc (by simp)
  · rw [if_neg hf] at hc
    have hg : g = rows.filter (fun r => keptRow r && decide (rkey r = k)) :=
      (Option.some.injEq _ _).mp hc
    exact ⟨hg, by rw [hg]; exact hf⟩

theorem foldl_min_le_init (f : TessRow → Int) (a : Int) (rs : List TessRow) :
    rs.foldl (fun m s => min m (f s)) a ≤ a := by
  induction rs generalizing a with
  | nil => simp
  | cons s u ih =>
    rw [List.foldl_cons]
    exact le_trans (ih (min a (f s))) (min_le_left a (f s))

theorem foldl_min_le_mem (f : TessRow → Int) (a : Int) (rs : List TessRow) :
    ∀ t ∈ rs, rs.foldl (fun m s => min m (f s)) a ≤ f t := by
  induction rs generalizing a with
  | nil => intro t ht; simp at ht
  | cons s u ih =>
    intro t ht
    rw [List.foldl_cons]
    rcases List.mem_cons.mp ht with hEq | hMem
    · subst hEq
      exact le_trans (foldl_min_le_init f _ u) (min_le_right a (f t))
    · exact ih (min a (f s)) t hMem

theorem foldl_min_attained (f : TessRow → Int) (a : Int) (rs : List TessRow) :
    rs.foldl (fun m s => min m (f s)) a = a ∨
      ∃ t ∈ rs, rs.foldl (fun m s => min m (f s)) a = f t := by
  induction rs generalizing a with
  | nil => exact Or.inl rfl
  | cons s u ih =>
    rw [List.foldl_cons]
    rcases ih (min a (f s)) with h | ⟨t, ht, h⟩
    · rcases min_choice a (f s) with hm | hm
      · exact Or.inl (by rw [h, hm])
      · exact Or.inr ⟨s, by simp, by rw [h, hm]⟩
    · exact Or.inr ⟨t, by simp [ht], h⟩

theorem foldl_max_init_le (f : TessRow → Int) (a : Int) (rs : List TessRow) :
    a ≤ rs.foldl (fun m s => max m (f s)) a := by
  induction rs generalizing a with
  | nil => simp
  | cons s u ih =>
    rw [List.foldl_cons]
    exact le_trans (le_max_left a (f s)) (ih (max a (f s)))

theorem foldl_max_mem_le (f : TessRow → Int) (a : Int) (rs : List TessRow) :
    ∀ t ∈ rs, f t ≤ rs.foldl (fun m s => max m (f s)) a := by
  induction rs generalizing a with
  | nil => intro t ht; simp at ht
  | cons s u ih =>
    intro t ht
    rw [List.foldl_cons]
    rcases List.mem_cons.mp ht with hEq | hMem
    · subst hEq
      exact le_trans (le_max_right a (f t)) (foldl_max_init_le f _ u)
    · exact ih (max a (f s)) t hMem

theorem foldl_max_attained (f : TessRow → Int) (a : Int) (rs : List TessRow) :
    rs.foldl (fun m s => max m (f s)) a = a ∨
      ∃ t ∈ rs, rs.foldl (fun m s => max m (f s)) a = f t := by
  induction rs generalizing a with
  | nil => exact Or.inl rfl
  | cons s u ih =>
    rw [List.foldl_cons]
    rcases ih (max a (f s)) with h | ⟨t, ht, h⟩
    · rcases max_choice a (f s) with hm | hm
      · exact Or.inl (by rw [h, hm])
      · exact Or.inr ⟨s, by simp, by rw [h, hm]⟩
    · exact Or.inr ⟨t, by simp [ht], h⟩

/-- C4: every Element the grouper builds from a group is the tight
coordinate-wise union of the member boxes: the element box contains every
member box, each of its four sides is attained by some member, and when
every member box is well formed (nonnegative width and height, the Token
invariant) the element also has nonnegative width and height. -/
theorem C4_element_box (page : Int) (g : List TessRow) (e : Element)
    (he : elemOfGroup page g = some e) :
    (∀ t ∈ g, e.x ≤ t.left ∧ e.y ≤ t.top ∧ t.left + t.width ≤ e.x + e.width ∧
      t.top + t.height ≤ e.y + e.height) ∧
    ((∃ t ∈ g, e.x = t.left) ∧ (∃ t ∈ g, e.y = t.top) ∧
      (∃ t ∈ g, e.x + e.width = t.left + t.width) ∧
      (∃ t ∈ g, e.y + e.height = t.top + t.height)) ∧
    ((∀ t ∈ g, 0 ≤ t.width ∧ 0 ≤ t.height) → 0 ≤ e.width ∧ 0 ≤ e.height) := by
  match g with
  | [] => simp [elemOfGroup] at he
  | r :: rs =>
    simp only [elemOfGroup] at he
    split at he
    · exact absurd he (by simp)
    · rw [Option.some.injEq] at he
      subst he
      dsimp only
      have hminx : ∀ t ∈ r :: rs,
          rs.foldl (fun m s => min m s.left) r.left ≤ t.left := by
        intro t ht
        rcases List.mem_cons.mp ht with hEq | hMem
        · subst hEq; exact foldl_min_le_init _ _ _
        · exact foldl_min_le_mem _ _ _ t hMem
      have hminy : ∀ t ∈ r :: rs,
          rs.foldl (fun m s => min m s.top) r.top ≤ t.top := by
        intro t ht
        rcases List.mem_cons.mp ht with hEq | hMem
        · subst hEq; exact foldl_min_le_init _ _ _
        · exact foldl_min_le_mem _ _ _ t hMem
      have hmaxx : ∀ t ∈ r :: rs, t.left + t.width ≤
          rs.foldl (fun m s => max m (s.left + s.width)) (r.left + r.width) := by
        intro t ht
        rcases List.mem_cons.mp ht with hEq | hMem
        · subst hEq; exact foldl_max_init_le _ _ _
        · exact foldl_max_mem_le _ _ _ t hMem
      have hmaxy : ∀ t ∈ r :: rs, t.top + t.height ≤
          rs.foldl (fun m s => max m (s.top + s.height)) (r.top + r.height) := by
        intro t ht
        rcases List.mem_cons.mp ht with hEq | hMem
        · subst hEq; exact foldl_max_init_le _ _ _
        · exact foldl_max_mem_le _ _ _ t hMem
      have hax : ∃ t ∈ r :: rs,
          rs.foldl (fun m s => min m s.left) r.left = t.left := by
        rcases foldl_min_attained (fun s => s.left) r.left rs with h | ⟨t, ht, h⟩
        · exact ⟨r, by simp, h⟩
        · exact ⟨t, by simp [ht], h⟩
      have hay : ∃ t ∈ r :: rs,
          rs.foldl (fun m s => min m s.top) r.top = t.top := by
        rcases foldl_min_attained (fun s => s.top) r.top rs with h | ⟨t, ht, h⟩
        · exact ⟨r, by simp, h⟩
        · exact ⟨t, by simp [ht], h⟩
      have hax1 : ∃ t ∈ r :: rs,
          rs.foldl (fun m s => max m (s.left + s.width)) (r.left + r.width)
            = t.left + t.width := by
        rcases foldl_max_attained (fun s => s.left + s.width) (r.left + r.width) rs
          with h | ⟨t, ht, h⟩
        · exact ⟨r, by simp, h⟩
        · exact ⟨t, by simp [ht], h⟩
      have hay1 : ∃ t ∈ r :: rs,
          rs.foldl (fun m s => max m (s.top + s.height)) (r.top + r.height)
            = t.top + t.height := by
        rcases foldl_max_attained (fun s => s.top + s.height) (r.top + r.height) rs
          with h | ⟨t, ht, h⟩
        · exact ⟨r, by simp, h⟩
        · exact ⟨t, by simp [ht], h⟩
      refine ⟨?_, ⟨hax, hay, ?_, ?_⟩, ?_⟩
      · intro t ht
        have h1 := hminx t ht
        have h2 := hminy t ht
        have h3 := hmaxx t ht
        have h4 := hmaxy t ht
        refine ⟨h1, h2, ?_, ?_⟩ <;> omega
      · obtain ⟨t, ht, h⟩ := hax1
        exact ⟨t, ht, by omega⟩
      · obtain ⟨t, ht, h⟩ := hay1
        exact ⟨t, ht, by omega⟩
      · intro hwf
        obtain ⟨tx, htx, hx⟩ := hax
        obtain ⟨ty, hty, hy⟩ := hay
        have h1 := hmaxx tx htx
        have h2 := hmaxy ty hty
        have h3 := (hwf tx htx).1
        have h4 := (hwf ty hty).2
        constructor <;> omega

/-- C4 witness: the theorem applied to a concrete one-row group, with the
group hypothesis and the well-formedness hypothesis discharged there. -/
theorem C4_element_box_witness :
    0 ≤ (⟨['a'], 10, 10, 70, 20, 1⟩ : Element).width ∧
    0 ≤ (⟨['a'], 10, 10, 70, 20, 1⟩ : Element).height :=
  (C4_element_box 1 [⟨['a'], some 90, 10, 10, 70, 20, 1, 1, 1⟩]
    ⟨['a'], 10, 10, 70, 20, 1⟩ (by decide)).2.2 (by decide)

/-- C3: the grouper partitions the rows with nonempty stripped text by
(block, paragraph, line) key: the emitted keys are the distinct keys of
those rows in first-seen order, each group consists exactly of the kept
rows carrying its key in input order, the content of the element built
from a byLine group is the stripped member texts joined by single spaces
in token order, three tokens sharing one key produce exactly one element
whose content is the first stripped text, a space, the second stripped
text, a space, and the third stripped text, and a group whose joined
content is empty after stripping is dropped. -/
theorem C3_grouping (page : Int) (rows : List TessRow) :
    ((byLine rows).map Prod.fst = firstSeenKeys [] rows) ∧
    (∀ k g, (k, g) ∈ byLine rows →
      g = rows.filter (fun r => keptRow r && decide (rkey r = k)) ∧ g ≠ []) ∧
    (∀ k g e, (k, g) ∈ byLine rows → elemOfGroup page g = some e →
      e.content = joinSp (g.map (fun s => pyStrip s.text))) ∧
    (∀ t1 t2 t3 : TessRow, rkey t1 = rkey t2 → rkey t2 = rkey t3 →
      pyStrip t1.text ≠ [] → pyStrip t2.text ≠ [] → pyStrip t3.text ≠ [] →
      (docaiifyElements page [t1, t2, t3]).map Element.content
        = [pyStrip t1.text ++ ' ' :: (pyStrip t2.text ++ ' ' :: pyStrip t3.text)]) ∧
    (∀ g : List TessRow,
      pyStrip (joinSp (g.map (fun s => pyStrip s.text))) = [] →
      elemOfGroup page g = none) := by
  refine ⟨byLine_keys rows, byLine_groups rows, ?_, ?_, ?_⟩
  · intro k g e hm he
    obtain ⟨hg, hne⟩ := byLine_groups rows k g hm
    have hmem : ∀ s ∈ g, pyStrip s.text ≠ [] := by
      intro s hs
      rw [hg] at hs
      have hpred := (List.mem_filter.mp hs).2
      have hk : keptRow s = true ∧ rkey s = k := by simpa using hpred
      simpa [keptRow, List.isEmpty_iff] using hk.1
    have hpieces : ∀ p ∈ g.map (fun s => pyStrip s.text),
        p ≠ [] ∧ anchored p = true ∧ anchored p.reverse = true := by
      intro p hp
      obtain ⟨s, hs, rfl⟩ := List.mem_map.mp hp
      exact stripped_piece s.text (hmem s hs)
    cases g with
    | nil => exact absurd rfl hne
    | cons r rs =>
      simp only [elemOfGroup] at he
      split at he
      · exact absurd he (by simp)
      · rw [Option.some.injEq] at he
        subst he
        dsimp only
        exact pyStrip_joinSp _ hpieces (by simp)
  · intro t1 t2 t3 h12 h23 hs1 hs2 hs3
    have e2 : insertTok [(rkey t1, [t1])] (rkey t2) t2 = [(rkey t1, [t1, t2])] := by
      simp [insertTok, h12]
    have e3 : insertTok [(rkey t1, [t1, t2])] (rkey t3) t3
        = [(rkey t1, [t1, t2, t3])] := by
      simp [insertTok, h12.trans h23]
    have hb : byLine [t1, t2, t3] = [(rkey t1, [t1, t2, t3])] := by
      simp only [byLine, byLineAux, if_neg hs1, if_neg hs2, if_neg hs3]
      rw [show insertTok [] (rkey t1) t1 = [(rkey t1, [t1])] from rfl, e2, e3]
    have hps : ∀ p ∈ [pyStrip t1.text, pyStrip t2.text, pyStrip t3.text],
        p ≠ [] ∧ anchored p = true ∧ anchored p.reverse = true := by
      intro p hp
      simp only [List.mem_cons, List.not_mem_nil, or_false] at hp
      rcases hp with rfl | rfl | rfl
      · exact stripped_piece _ hs1
      · exact stripped_piece _ hs2
      · exact stripped_piece _ hs3
    have hcontent : pyStrip (joinSp [pyStrip t1.text, pyStrip t2.text, pyStrip t3.text])
        = pyStrip t1.text ++ ' ' :: (pyStrip t2.text ++ ' ' :: pyStrip t3.text) := by
      rw [pyStrip_joinSp _ hps (by simp)]
      simp [joinSp]
    have hnec : pyStrip (joinSp [pyStrip t1.text, pyStrip t2.text, pyStrip t3.text]) ≠ [] := by
      rw [hcontent]
      simp
    rw [docaiifyElements, hb]
    simp only [List.filterMap_cons, List.filterMap_nil, elemOfGroup,
      List.map_cons, List.map_nil, if_neg hnec]
    simp [hcontent]
  · intro g hempty
    cases g with
    | nil => rfl
    | cons r rs =>
      simp only [elemOfGroup]
      rw [if_pos hempty]

/-- C3 witness: the claim theorem applied to concrete rows, discharging
the group-membership and nonempty-text hypotheses at concrete inputs. -/
theorem C3_grouping_witness :
    ([(⟨['a'], some 90, 1, 2, 3, 4, 7, 8, 9⟩ : TessRow),
        ⟨['b'], some 80, 5, 6, 7, 8, 7, 8, 9⟩]
      = [(⟨['a'], some 90, 1, 2, 3, 4, 7, 8, 9⟩ : TessRow),
          ⟨['b'], some 80, 5, 6, 7, 8, 7, 8, 9⟩].filter
          (fun r => keptRow r && decide (rkey r = (7, 8, 9))) ∧
      [(⟨['a'], some 90, 1, 2, 3, 4, 7, 8, 9⟩ : TessRow),
        ⟨['b'], some 80, 5, 6, 7, 8, 7, 8, 9⟩] ≠ []) ∧
    (docaiifyElements 1 [⟨['a'], some 90, 1, 2, 3, 4, 7, 8, 9⟩,
        ⟨['b'], some 80, 5, 6, 7, 8, 7, 8, 9⟩,
        ⟨['c'], some 70, 9, 9, 9, 9, 7, 8, 9⟩]).map Element.content
      = [pyStrip ['a'] ++ ' ' :: (pyStrip ['b'] ++ ' ' :: pyStrip ['c'])] :=
  ⟨(C3_grouping 1 [⟨['a'], some 90, 1, 2, 3, 4, 7, 8, 9⟩,
      ⟨['b'], some 80, 5, 6, 7, 8, 7, 8, 9⟩]).2.1 (7, 8, 9)
      [⟨['a'], some 90, 1, 2, 3, 4, 7, 8, 9⟩,
        ⟨['b'], some 80, 5, 6, 7, 8, 7, 8, 9⟩] (by decide),
   (C3_grouping 1 []).2.2.2.1 ⟨['a'], some 90, 1, 2, 3, 4, 7, 8, 9⟩
      ⟨['b'], some 80, 5, 6, 7, 8, 7, 8, 9⟩ ⟨['c'], some 70, 9, 9, 9, 9, 7, 8, 9⟩
      rfl rfl (by decide) (by decide) (by decide)⟩

/-! ### JSON-like values and normalize-docai (server.py lines 181 to 232) -/

/-- A Python/JSON value as handled by normalize_docai: None, bool, number
(floats modeled as rationals), string, list, and insertion-ordered dict. -/
inductive JVal where
  | null : JVal
  | bool (b : Bool) : JVal
  | num (q : ℚ) : JVal
  | str (s : String) : JVal
  | arr (xs : List JVal) : JVal
  | obj (kvs : List (String × JVal)) : JVal

/-- Lookup in a Python dict modeled as an association list. -/
def jlookup (kvs : List (String × JVal)) (k : String) : Option JVal :=
  match kvs with
  | [] => none
  | (k0, v) :: rest => if k0 = k then some v else jlookup rest k

/-- Python truthiness of a value, as used by or-defaulting and if tests. -/
def pyFalsy : JVal → Bool
  | .null => true
  | .bool b => !b
  | .num q => decide (q = 0)
  | .str s => decide (s = "")
  | .arr xs => xs.isEmpty
  | .obj kvs => kvs.isEmpty

/-- Python `a or b`. -/
def pyOr (a b : JVal) : JVal := if pyFalsy a then b else a

/-- Python exceptions are modeled as Except errors carrying the name. -/
abbrev PyM (α : Type) := Except String α

/-- Python v.get(key, default): raises AttributeError on a non-dict. -/
def dictGet (v : JVal) (k : String) (dflt : JVal) : PyM JVal :=
  match v with
  | .obj kvs => .ok ((jlookup kvs k).getD dflt)
  | _ => .error "AttributeError"

/-- Base-10 value of a digit list. -/
def digitsVal (ds : List Char) : ℕ :=
  ds.foldl (fun a c => 10 * a + (c.toNat - 48)) 0

/-- Unsigned part of Python float() on a string: digits with an optional
fractional part. Exponent forms do not occur in this input. -/
def parseUFloat (l : List Char) : PyM ℚ :=
  let ip := l.takeWhile (fun c => !(c = '.'))
  let rest := l.dropWhile (fun c => !(c = '.'))
  match rest with
  | [] =>
    if ip ≠ [] ∧ ip.all Char.isDigit then .ok ((digitsVal ip : ℚ))
    else .error "ValueError"
  | _ :: fp =>
    if (ip ++ fp) ≠ [] ∧ (ip ++ fp).all Char.isDigit ∧ fp.all (fun c => !(c = '.'))
    then .ok ((digitsVal ip : ℚ) + (digitsVal fp : ℚ) / ((10 : ℚ) ^ fp.length))
    else .error "ValueError"

/-- Unsigned part of Python int() on a string: digits only. -/
def parseUInt (l : List Char) : PyM Int :=
  if l ≠ [] ∧ l.all Char.isDigit then .ok ((digitsVal l : Int))
  else .error "ValueError"

/-- Optional leading sign of a Python numeric literal. -/
def parseSigned {α : Type} [Neg α] (parse : List Char → PyM α)
    (l : List Char) : PyM α :=
  match l with
  | '-' :: t => (parse t).map Neg.neg
  | '+' :: t => parse t
  | _ => parse l

/-- Model of Python float() on a value. -/
def pyFloat : JVal → PyM ℚ
  | .num q => .ok q
  | .bool b => .ok (if b then 1 else 0)
  | .str s => parseSigned parseUFloat (pyStrip s.data)
  | _ => .error "TypeError"

/-- Model of Python int() on a value; on a float it truncates toward 0. -/
def pyInt : JVal → PyM Int
  | .num q => .ok (pyTrunc q)
  | .bool b => .ok (if b then 1 else 0)
  | .str s => parseSigned parseUInt (pyStrip s.data)
  | _ => .error "TypeError"

mutual

/-- Model of Python repr rendering, used for container elements. Numeric
rendering is simplified to the rational display; no claim depends on
numeric formatting. -/
def pyRepr : JVal → String
  | .null => "None"
  | .bool b => if b then "True" else "False"
  | .num q => if q.den = 1 then toString q.num else toString q
  | .str s => "\x27" ++ s ++ "\x27"
  | .arr xs => "[" ++ pyReprList xs ++ "]"
  | .obj kvs => "\x7b" ++ pyReprObj kvs ++ "\x7d"

def pyReprList : List JVal → String
  | [] => ""
  | [x] => pyRepr x
  | x :: y :: rest => pyRepr x ++ ", " ++ pyReprList (y :: rest)

def pyReprObj : List (String × JVal) → String
  | [] => ""
  | [(k, v)] => "\x27" ++ k ++ "\x27: " ++ pyRepr v
  | (k, v) :: p :: rest =>
    "\x27" ++ k ++ "\x27: " ++ pyRepr v ++ ", " ++ pyReprObj (p :: rest)

end

/-- Model of Python str() applied to a property value. -/
def pyStr : JVal → String
  | .str s => s
  | v => pyRepr v

/-- The per-component extraction of _box_from_norm_vertices (server.py
lines 182 and 183): float(v.get(c, 0.0)) over the dict entries of the
vertex list, non-dict entries skipped. -/
def vertComp (c : String) : List JVal → PyM (List ℚ)
  | [] => .ok []
  | v :: rest =>
    match v with
    | .obj kvs => do
      let q ← pyFloat ((jlookup kvs c).getD (.num 0))
      let qs ← vertComp c rest
      .ok (q :: qs)
    | _ => vertComp c rest

/-- Python min over a list; the source guards nonemptiness, so the empty
default is never consulted. -/
def listMin : List ℚ → ℚ
  | [] => 0
  | q :: qs => qs.foldl min q

/-- Python max over a list; the source guards nonemptiness. -/
def listMax : List ℚ → ℚ
  | [] => 0
  | q :: qs => qs.foldl max q

/-- server.py lines 181 to 186, _box_from_norm_vertices: per-component
lists with missing coordinates defaulting to 0.0, a ValueError when no
vertex contributes, else (min x, min y, max x, max y). -/
def box_from_norm_vertices (nv : List JVal) : PyM (ℚ × ℚ × ℚ × ℚ) := do
  let xs ← vertComp "x" nv
  let ys ← vertComp "y" nv
  if xs = [] ∨ ys = [] then .error "ValueError: empty normalized_vertices"
  else .ok (listMin xs, listMin ys, listMax xs, listMax ys)

/-- A page record of the normalize response (server.py line 213). -/
structure PageRec where
  page_number : Int
  width : Int
  height : Int
  unit : JVal

/-- A normalized box attached to a field (server.py line 227). -/
structure NormBox where
  page : Int
  x0 : ℚ
  y0 : ℚ
  x1 : ℚ
  y1 : ℚ

/-- A field record of the normalize response (server.py lines 219 to 230). -/
structure FieldRec where
  name : String
  value : JVal
  norm_box : Option NormBox

/-- The reserved metadata keys of server.py line 216. -/
def metaKeys : List String := ["metadata", "metaData", "meta_data", "_metadata"]

/-- The page-metadata extraction of server.py lines 204 to 211. Note that
only the exact key "metadata" is consulted. -/
def pageInfoOf (props : JVal) : PyM (Int × Int × Int × JVal) := do
  let m ← dictGet props "metadata" .null
  let mdm0 ← dictGet (pyOr m (.obj [])) "metaDataMap" .null
  let pinfo0 ← dictGet (pyOr mdm0 (.obj [])) "pageInfo" .null
  let pinfo := pyOr pinfo0 (.obj [])
  let pn0 ← dictGet pinfo "page_number" .null
  let pn ← pyInt (pyOr pn0 (.num 1))
  let dim0 ← dictGet pinfo "dimension" .null
  let dim := pyOr dim0 (.obj [])
  let w0 ← dictGet dim "width" .null
  let w ← pyInt (pyOr w0 (.num 0))
  let h0 ← dictGet dim "height" .null
  let h ← pyInt (pyOr h0 (.num 0))
  let u0 ← dictGet dim "unit" .null
  .ok (pn, w, h, pyOr u0 (.str "pixels"))

/-- The value coercion of server.py line 226: keep a string or None as is,
stringify anything else. -/
def valueCoerce (vv : JVal) : JVal :=
  match vv with
  | .str s => .str s
  | .null => .null
  | v => .str (pyStr v)

/-- The per-property field construction of server.py lines 218 to 230:
a non-dict value is stringified with no box; a dict value with a nonempty
normalized_vertices list under bounding_poly gets the polygon box tagged
with the page number; otherwise the raw value entry is kept with no box. -/
def processProp (pn : Int) (k : String) (v : JVal) : PyM FieldRec :=
  match v with
  | .obj kvs => do
    let bp0 ← dictGet (.obj kvs) "bounding_poly" .null
    let nv ← dictGet (pyOr bp0 (.obj [])) "normalized_vertices" .null
    match nv with
    | .arr l =>
      if l.isEmpty then .ok ⟨k, (jlookup kvs "value").getD .null, none⟩
      else do
        let (x0, y0, x1, y1) ← box_from_norm_vertices l
        .ok ⟨k, valueCoerce ((jlookup kvs "value").getD .null),
          some ⟨pn, x0, y0, x1, y1⟩⟩
    | _ => .ok ⟨k, (jlookup kvs "value").getD .null, none⟩
  | v => .ok ⟨k, .str (pyStr v), none⟩

/-- The field loop of server.py lines 215 to 230 with the metadata-key
exclusion of line 216. -/
def fieldsOf (pn : Int) : List (String × JVal) → PyM (List FieldRec)
  | [] => .ok []
  | (k, v) :: rest =>
    if k ∈ metaKeys then fieldsOf pn rest
    else do
      let f ← processProp pn k v
      let fs ← fieldsOf pn rest
      .ok (f :: fs)

/-- Python dict items view; raises on a non-dict. -/
def objItems : JVal → PyM (List (String × JVal))
  | .obj kvs => .ok kvs
  | _ => .error "AttributeError"

/-- Python iteration over a value: lists iterate their elements. Iterating
any other value either raises TypeError at once or (strings, dicts)
yields items on which the first attribute access raises, so it is modeled
as the raised error. -/
def iterList : JVal → PyM (List JVal)
  | .arr xs => .ok xs
  | _ => .error "TypeError"

/-- One properties entry of server.py lines 203 to 230: page metadata,
with the page record appended only when width and height are both truthy,
then the fields of the non-metadata properties. -/
def processProps (props : JVal) : PyM (List PageRec × List FieldRec) := do
  let (pn, w, h, unit) ← pageInfoOf props
  let kvs ← objItems props
  let fs ← fieldsOf pn kvs
  .ok (if w ≠ 0 ∧ h ≠ 0 then [⟨pn, w, h, unit⟩] else [], fs)

/-- One document of server.py lines 201 to 230. -/
def processDoc (doc : JVal) : PyM (List PageRec × List FieldRec) := do
  let pl0 ← dictGet doc "properties" (.arr [])
  let pl ← iterList pl0
  pl.foldlM (fun acc props => do
    let (ps, fs) ← processProps props
    .ok ((acc.1 ++ ps, acc.2 ++ fs) : List PageRec × List FieldRec))
    (([], []) : List PageRec × List FieldRec)

/-- The response of normalize-docai (server.py lines 192, 198 and 232). -/
inductive NormResp where
  | fail (status : Nat) (msg : String) : NormResp
  | good (pages : List PageRec) (fields : List FieldRec) : NormResp

/-- server.py lines 196 to 232, from the root object on. -/
def processRoot (root : JVal) : PyM NormResp := do
  let documents ← dictGet root "documents" (.arr [])
  if pyFalsy documents then .ok (.fail 400 "missing documents[]")
  else do
    let docs ← iterList documents
    let r ← docs.foldlM (fun acc doc => do
      let (ps, fs) ← processDoc doc
      .ok ((acc.1 ++ ps, acc.2 ++ fs) : List PageRec × List FieldRec))
      (([], []) : List PageRec × List FieldRec)
    .ok (.good r.1 r.2)

/-- The normalize-docai endpoint (server.py lines 188 to 232). The body is
none when request.get_json(force=True, silent=True) returned None, that
is, on unparseable JSON; a top-level array root is replaced by its first
element, an empty array by an empty dict. -/
def normalize_docai (body : Option JVal) : PyM NormResp :=
  match body with
  | none => .ok (.fail 400 "invalid JSON")
  | some root =>
    processRoot (match root with
      | .arr xs => xs.headD (.obj [])
      | r => r)

/-! ### The /ocr handler outcome (main.py lines 26 to 89) -/

/-- The decoded image of the /ocr handler: its pixel dimensions. -/
structure DecodedImage where
  w : ℕ
  h : ℕ

/-- An HTTP-level outcome of the /ocr handler. -/
inductive OcrHttp where
  | ok200 (page : Int) (width : Int) (height : Int) (tokens : List Token) : OcrHttp
  | unprocessable422 (msg : String) : OcrHttp
  | raised (msg : String) : OcrHttp

/-- The POST path of the Flask /ocr handler (main.py lines 34 to 89): a
missing page file returns a 422 error response; Image.open runs with no
surrounding try/except, so undecodable bytes (decoded = none) raise out
of the handler; on success the image is upscaled, binarization keeps the
dimensions, and the engine rows (an oracle standing for pytesseract on
the prepared buffer) go through the token gate. -/
def ocrPost (hasPageFile : Bool) (decoded : Option DecodedImage) (pageNum : Int)
    (dpi : ℕ) (engine : Int × Int → List TessRow) : OcrHttp :=
  if !hasPageFile then .unprocessable422 "missing file field \x27page\x27"
  else
    match decoded with
    | none => .raised "UnidentifiedImageError"
    | some img =>
      let dims := upscaledDims img.w img.h dpi
      .ok200 pageNum dims.1 dims.2 (ocrTokens pageNum (engine dims))

/-- A response in the 4xx rejected-request class: the only one this
handler builds is the 422. -/
def is4xx : OcrHttp → Bool
  | .unprocessable422 _ => true
  | _ => false

theorem PyM_bind_ok {α β : Type} (a : α) (f : α → PyM β) :
    ((Except.ok a : PyM α) >>= f) = f a := rfl

theorem PyM_bind_error {α β : Type} (e : String) (f : α → PyM β) :
    ((Except.error e : PyM α) >>= f) = Except.error e := rfl

theorem pyTrunc_zero : pyTrunc 0 = 0 := by
  unfold pyTrunc
  rw [if_pos le_rfl]
  exact Int.floor_zero

theorem pyTrunc_one : pyTrunc 1 = 1 := by
  unfold pyTrunc
  rw [if_pos zero_le_one]
  exact Int.floor_one

theorem pyTrunc_intCast (n : Int) : pyTrunc ((n : ℚ)) = n := by
  unfold pyTrunc
  by_cases h : (0 : ℚ) ≤ (n : ℚ)
  · rw [if_pos h, Int.floor_intCast]
  · rw [if_neg h, ← Int.cast_neg, Int.floor_intCast]
    omega

theorem qfoldl_min_le_init (a : ℚ) (l : List ℚ) : l.foldl min a ≤ a := by
  induction l generalizing a with
  | nil => simp
  | cons q u ih =>
    rw [List.foldl_cons]
    exact le_trans (ih (min a q)) (min_le_left a q)

theorem qfoldl_min_le_mem (a : ℚ) (l : List ℚ) :
    ∀ q ∈ l, l.foldl min a ≤ q := by
  induction l generalizing a with
  | nil => intro q hq; simp at hq
  | cons p u ih =>
    intro q hq
    rw [List.foldl_cons]
    rcases List.mem_cons.mp hq with rfl | hMem
    · exact le_trans (qfoldl_min_le_init (min a q) u) (min_le_right a q)
    · exact ih (min a p) q hMem

theorem qfoldl_max_init_le (a : ℚ) (l : List ℚ) : a ≤ l.foldl max a := by
  induction l generalizing a with
  | nil => simp
  | cons q u ih =>
    rw [List.foldl_cons]
    exact le_trans (le_max_left a q) (ih (max a q))

theorem qfoldl_max_mem_le (a : ℚ) (l : List ℚ) :
    ∀ q ∈ l, q ≤ l.foldl max a := by
  induction l generalizing a with
  | nil => intro q hq; simp at hq
  | cons p u ih =>
    intro q hq
    rw [List.foldl_cons]
    rcases List.mem_cons.mp hq with rfl | hMem
    · exact le_trans (le_max_right a q) (qfoldl_max_init_le (max a q) u)
    · exact ih (max a p) q hMem

theorem listMin_le (l : List ℚ) : ∀ q ∈ l, listMin l ≤ q := by
  cases l with
  | nil => intro q hq; simp at hq
  | cons q0 qs =>
    intro q hq
    rcases List.mem_cons.mp hq with rfl | hMem
    · exact qfoldl_min_le_init q qs
    · exact qfoldl_min_le_mem q0 qs q hMem

theorem le_listMax (l : List ℚ) : ∀ q ∈ l, q ≤ listMax l := by
  cases l with
  | nil => intro q hq; simp at hq
  | cons q0 qs =>
    intro q hq
    rcases List.mem_cons.mp hq with rfl | hMem
    · exact qfoldl_max_init_le q qs
    · exact qfoldl_max_mem_le q0 qs q hMem

theorem box_from_norm_vertices_eval (nv : List JVal) (xs ys : List ℚ)
    (hx : vertComp "x" nv = .ok xs) (hy : vertComp "y" nv = .ok ys)
    (hxne : xs ≠ []) (hyne : ys ≠ []) :
    box_from_norm_vertices nv
      = .ok (listMin xs, listMin ys, listMax xs, listMax ys) := by
  unfold box_from_norm_vertices
  rw [hx, PyM_bind_ok, hy, PyM_bind_ok, if_neg (not_or.mpr ⟨hxne, hyne⟩)]

/-- C5: polygon-to-box returns the componentwise minima and maxima of the
vertex coordinates (each bound attained within the extracted component
lists), a vertex with a missing component contributes the default 0.0,
the known square maps to its box, and the empty vertex list raises the
input error instead of resolving to a degenerate zero box. -/
theorem C5_box_from_norm_vertices :
    (box_from_norm_vertices [] = .error "ValueError: empty normalized_vertices") ∧
    (box_from_norm_vertices
        [.obj [("x", .num (1/10)), ("y", .num (2/10))],
         .obj [("x", .num (9/10)), ("y", .num (2/10))],
         .obj [("x", .num (9/10)), ("y", .num (8/10))],
         .obj [("x", .num (1/10)), ("y", .num (8/10))]]
      = .ok (1/10, 2/10, 9/10, 8/10)) ∧
    (∀ nv xs ys, vertComp "x" nv = .ok xs → vertComp "y" nv = .ok ys →
      xs ≠ [] → ys ≠ [] →
      box_from_norm_vertices nv
          = .ok (listMin xs, listMin ys, listMax xs, listMax ys) ∧
        (∀ q ∈ xs, listMin xs ≤ q ∧ q ≤ listMax xs) ∧
        (∀ q ∈ ys, listMin ys ≤ q ∧ q ≤ listMax ys)) ∧
    (∀ kvs rest, jlookup kvs "x" = none →
      vertComp "x" (.obj kvs :: rest)
        = (vertComp "x" rest).map (fun t => 0 :: t)) := by
  refine ⟨rfl, ?_, ?_, ?_⟩
  · have hbox := box_from_norm_vertices_eval
      [.obj [("x", .num (1/10)), ("y", .num (2/10))],
       .obj [("x", .num (9/10)), ("y", .num (2/10))],
       .obj [("x", .num (9/10)), ("y", .num (8/10))],
       .obj [("x", .num (1/10)), ("y", .num (8/10))]]
      [1/10, 9/10, 9/10, 1/10] [2/10, 2/10, 8/10, 8/10] rfl rfl
      (by simp) (by simp)
    rw [hbox]
    have h1 : listMin [(1 : ℚ)/10, 9/10, 9/10, 1/10] = 1/10 := by
      norm_num [listMin, min_def]
    have h2 : listMin [(2 : ℚ)/10, 2/10, 8/10, 8/10] = 2/10 := by
      norm_num [listMin, min_def]
    have h3 : listMax [(1 : ℚ)/10, 9/10, 9/10, 1/10] = 9/10 := by
      norm_num [listMax, max_def]
    have h4 : listMax [(2 : ℚ)/10, 2/10, 8/10, 8/10] = 8/10 := by
      norm_num [listMax, max_def]
    rw [h1, h2, h3, h4]
  · intro nv xs ys hx hy hxne hyne
    exact ⟨box_from_norm_vertices_eval nv xs ys hx hy hxne hyne,
      fun q hq => ⟨listMin_le xs q hq, le_listMax xs q hq⟩,
      fun q hq => ⟨listMin_le ys q hq, le_listMax ys q hq⟩⟩
  · intro kvs rest h
    show vertComp "x" (.obj kvs :: rest) = _
    rw [vertComp]
    rw [h]
    show ((Except.ok (0 : ℚ) : PyM ℚ) >>= fun q =>
      vertComp "x" rest >>= fun qs => Except.ok (q :: qs)) = _
    rw [PyM_bind_ok]
    cases hr : vertComp "x" rest with
    | ok qs => rw [PyM_bind_ok]; rfl
    | error e => rfl

/-- C5 witness: the general min-max part applied to two concrete vertices,
the second of which has no x entry and so contributes the default 0, and
the default part applied to a concrete dict without an x entry. -/
theorem C5_box_witness :
    (box_from_norm_vertices [.obj [("x", .num 2), ("y", .num 3)], .obj [("y", .num 5)]]
        = .ok (listMin [2, 0], listMin [3, 5], listMax [2, 0], listMax [3, 5]) ∧
      (∀ q ∈ [(2 : ℚ), 0], listMin [(2 : ℚ), 0] ≤ q ∧ q ≤ listMax [(2 : ℚ), 0]) ∧
      (∀ q ∈ [(3 : ℚ), 5], listMin [(3 : ℚ), 5] ≤ q ∧ q ≤ listMax [(3 : ℚ), 5])) ∧
    vertComp "x" [.obj [("y", .num 5)]]
      = (vertComp "x" []).map (fun t => 0 :: t) :=
  ⟨(C5_box_from_norm_vertices.2.2.1 [.obj [("x", .num 2), ("y", .num 3)],
      .obj [("y", .num 5)]] [2, 0] [3, 5] rfl rfl (by simp) (by simp)),
   C5_box_from_norm_vertices.2.2.2 [("y", .num 5)] [] rfl⟩

/-- C6 counterexample: with the page file present but the bytes
undecodable, the /ocr handler raises an uncaught exception instead of
returning a 4xx-class rejected-request response, refuting the claim that
the failure is surfaced to the caller as a 4xx-class result. -/
theorem C6_counterexample :
    ocrPost true none 1 300 (fun _ => []) = .raised "UnidentifiedImageError" ∧
    is4xx (ocrPost true none 1 300 (fun _ => [])) = false :=
  ⟨rfl, rfl⟩

/-- C6 (amended): for every request carrying undecodable bytes in the page
file, the decoding failure escapes the handler as an uncaught exception
(which the framework default turns into a 500 server error response), it
is never surfaced as a 4xx rejected-request result, the handler has no
retry path (the decode is evaluated exactly once in a straight line), and
with the page file present the handler never produces a 4xx at all; the
pipeline process itself survives, the exception being confined to the
request. -/
theorem C6_amended_decode_failure (pageNum : Int) (dpi : ℕ)
    (engine : Int × Int → List TessRow) :
    ocrPost true none pageNum dpi engine = .raised "UnidentifiedImageError" ∧
    is4xx (ocrPost true none pageNum dpi engine) = false ∧
    ∀ blob : Option DecodedImage,
      is4xx (ocrPost true blob pageNum dpi engine) = false := by
  refine ⟨rfl, rfl, ?_⟩
  intro blob
  cases blob <;> rfl

theorem ok_name (k : String) (val : JVal) (nb : Option NormBox) (f : FieldRec)
    (h : (Except.ok (⟨k, val, nb⟩ : FieldRec) : PyM FieldRec) = .ok f) :
    f.name = k := by
  rw [Except.ok.injEq] at h
  rw [← h]

theorem processProp_poly (pn : Int) (k : String) (kvs : List (String × JVal))
    (l : List JVal) (x0 y0 x1 y1 : ℚ)
    (hnv : dictGet (pyOr ((jlookup kvs "bounding_poly").getD .null) (.obj []))
      "normalized_vertices" .null = .ok (.arr l))
    (hne : l ≠ [])
    (hbox : box_from_norm_vertices l = .ok (x0, y0, x1, y1)) :
    processProp pn k (.obj kvs)
      = .ok ⟨k, valueCoerce ((jlookup kvs "value").getD .null),
          some ⟨pn, x0, y0, x1, y1⟩⟩ := by
  simp only [processProp]
  rw [show dictGet (.obj kvs) "bounding_poly" .null
    = .ok ((jlookup kvs "bounding_poly").getD .null) from rfl, PyM_bind_ok,
    hnv, PyM_bind_ok]
  have hl : l.isEmpty = false := by simp [List.isEmpty_iff, hne]
  simp only [hl, Bool.false_eq_true, if_false]
  rw [hbox, PyM_bind_ok]

theorem processProp_name (pn : Int) (k : String) (v : JVal) (f : FieldRec)
    (h : processProp pn k v = .ok f) : f.name = k := by
  cases v with
  | obj kvs =>
    simp only [processProp] at h
    rw [show dictGet (.obj kvs) "bounding_poly" .null
      = .ok ((jlookup kvs "bounding_poly").getD .null) from rfl, PyM_bind_ok] at h
    cases hnv : dictGet (pyOr ((jlookup kvs "bounding_poly").getD .null) (.obj []))
        "normalized_vertices" .null with
    | error e =>
      rw [hnv, PyM_bind_error] at h
      exact absurd h (by simp)
    | ok nv =>
      rw [hnv, PyM_bind_ok] at h
      cases nv with
      | arr l =>
        by_cases hl : l.isEmpty = true
        · simp only [hl, if_true] at h
          exact ok_name _ _ _ f h
        · have hl2 : l.isEmpty = false := by
            revert hl; cases l.isEmpty <;> simp
          simp only [hl2, Bool.false_eq_true, if_false] at h
          cases hbox : box_from_norm_vertices l with
          | error e =>
            rw [hbox, PyM_bind_error] at h
            exact absurd h (by simp)
          | ok p =>
            obtain ⟨a, b, c, d⟩ := p
            rw [hbox, PyM_bind_ok] at h
            exact ok_name _ _ _ f h
      | null => exact ok_name _ _ _ f h
      | bool b => exact ok_name _ _ _ f h
      | num q => exact ok_name _ _ _ f h
      | str s => exact ok_name _ _ _ f h
      | obj kvs2 => exact ok_name _ _ _ f h
  | null => exact ok_name _ _ _ f h
  | bool b => exact ok_name _ _ _ f h
  | num q => exact ok_name _ _ _ f h
  | str s => exact ok_name _ _ _ f h
  | arr xs => exact ok_name _ _ _ f h

theorem fieldsOf_names (pn : Int) (kvs : List (String × JVal))
    (fs : List FieldRec) (h : fieldsOf pn kvs = .ok fs) :
    ∀ f ∈ fs, f.name ∉ metaKeys := by
  induction kvs generalizing fs with
  | nil =>
    simp only [fieldsOf] at h
    rw [Except.ok.injEq] at h
    subst h
    intro f hf
    simp at hf
  | cons p rest ih =>
    obtain ⟨k, v⟩ := p
    by_cases hm : k ∈ metaKeys
    · rw [fieldsOf, if_pos hm] at h
      exact ih fs h
    · rw [fieldsOf, if_neg hm] at h
      cases hp : processProp pn k v with
      | error e =>
        rw [hp, PyM_bind_error] at h
        exact absurd h (by simp)
      | ok f0 =>
        rw [hp, PyM_bind_ok] at h
        cases hrest : fieldsOf pn rest with
        | error e =>
          rw [hrest, PyM_bind_error] at h
          exact absurd h (by simp)
        | ok fs0 =>
          rw [hrest, PyM_bind_ok, Except.ok.injEq] at h
          subst h
          intro f hf
          rcases List.mem_cons.mp hf with rfl | hMem
          · rw [processProp_name pn k v f hp]
            exact hm
          · exact ih fs0 hrest f hMem

theorem pageInfoOf_no_metadata (kvs : List (String × JVal))
    (h : jlookup kvs "metadata" = none) :
    pageInfoOf (.obj kvs) = .ok (1, 0, 0, .str "pixels") := by
  unfold pageInfoOf
  rw [show dictGet (.obj kvs) "metadata" .null
    = .ok ((jlookup kvs "metadata").getD .null) from rfl, PyM_bind_ok, h]
  rfl

theorem processProps_decomp (props : JVal) (ps : List PageRec)
    (fs : List FieldRec) (h : processProps props = .ok (ps, fs)) :
    ∃ pn w ht u kvs, pageInfoOf props = .ok (pn, w, ht, u) ∧
      objItems props = .ok kvs ∧ fieldsOf pn kvs = .ok fs ∧
      ps = (if w ≠ 0 ∧ ht ≠ 0 then [⟨pn, w, ht, u⟩] else []) := by
  unfold processProps at h
  cases hpi : pageInfoOf props with
  | error e =>
    rw [hpi, PyM_bind_error] at h
    exact absurd h (by simp)
  | ok q =>
    obtain ⟨pn, w, ht, u⟩ := q
    rw [hpi, PyM_bind_ok] at h
    dsimp only at h
    cases ho : objItems props with
    | error e =>
      rw [ho, PyM_bind_error] at h
      exact absurd h (by simp)
    | ok kvs =>
      rw [ho, PyM_bind_ok] at h
      cases hf : fieldsOf pn kvs with
      | error e =>
        rw [hf, PyM_bind_error] at h
        exact absurd h (by simp)
      | ok fs0 =>
        rw [hf, PyM_bind_ok, Except.ok.injEq, Prod.mk.injEq] at h
        obtain ⟨h1, h2⟩ := h
        subst h2
        exact ⟨pn, w, ht, u, kvs, rfl, rfl, hf, h1.symm⟩

/-- C7: in document flattening a non-dict property value yields a field
carrying the stringified scalar and no box; a dict value with a nonempty
normalized-vertex polygon yields a field whose box is the polygon-to-box
result tagged with the supplied page number; a dict value without such a
polygon keeps the raw value entry with no box; the fields of a properties
object are exactly those produced with the page number extracted from the
metadata of that same properties object; and the invoice_number scenario
of the specification evaluates to the claimed field. -/
theorem C7_flatten_fields :
    (∀ pn k v, (∀ kvs, v ≠ JVal.obj kvs) →
      processProp pn k v = .ok ⟨k, .str (pyStr v), none⟩) ∧
    (∀ pn k kvs l x0 y0 x1 y1,
      dictGet (pyOr ((jlookup kvs "bounding_poly").getD .null) (.obj []))
          "normalized_vertices" .null = .ok (.arr l) → l ≠ [] →
      box_from_norm_vertices l = .ok (x0, y0, x1, y1) →
      processProp pn k (.obj kvs)
        = .ok ⟨k, valueCoerce ((jlookup kvs "value").getD .null),
            some ⟨pn, x0, y0, x1, y1⟩⟩) ∧
    (∀ pn k kvs nv,
      dictGet (pyOr ((jlookup kvs "bounding_poly").getD .null) (.obj []))
          "normalized_vertices" .null = .ok nv →
      ((∀ l, nv ≠ JVal.arr l) ∨ nv = JVal.arr []) →
      processProp pn k (.obj kvs)
        = .ok ⟨k, (jlookup kvs "value").getD .null, none⟩) ∧
    (∀ props ps fs, processProps props = .ok (ps, fs) →
      ∃ pn w ht u kvs, pageInfoOf props = .ok (pn, w, ht, u) ∧
        objItems props = .ok kvs ∧ fieldsOf pn kvs = .ok fs) ∧
    (∀ pn, processProp pn "invoice_number"
        (.obj [("value", .str "A123"),
          ("bounding_poly", .obj [("normalized_vertices",
            .arr [.obj [("x", .num (2/10)), ("y", .num (3/10))],
                  .obj [("x", .num (4/10)), ("y", .num (35/100))]])])])
      = .ok ⟨"invoice_number", .str "A123",
          some ⟨pn, 2/10, 3/10, 4/10, 35/100⟩⟩) := by
  refine ⟨?_, ?_, ?_, ?_, ?_⟩
  · intro pn k v hv
    cases v with
    | obj kvs => exact absurd rfl (hv kvs)
    | null => rfl
    | bool b => rfl
    | num q => rfl
    | str s => rfl
    | arr xs => rfl
  · intro pn k kvs l x0 y0 x1 y1 hnv hne hbox
    exact processProp_poly pn k kvs l x0 y0 x1 y1 hnv hne hbox
  · intro pn k kvs nv hnv hshape
    simp only [processProp]
    rw [show dictGet (.obj kvs) "bounding_poly" .null
      = .ok ((jlookup kvs "bounding_poly").getD .null) from rfl, PyM_bind_ok,
      hnv, PyM_bind_ok]
    rcases hshape with hno | hemp
    · cases nv with
      | arr l => exact absurd rfl (hno l)
      | null => rfl
      | bool b => rfl
      | num q => rfl
      | str s => rfl
      | obj kvs2 => rfl
    · subst hemp
      rfl
  · intro props ps fs h
    obtain ⟨pn, w, ht, u, kvs, hpi, ho, hf, -⟩ := processProps_decomp props ps fs h
    exact ⟨pn, w, ht, u, kvs, hpi, ho, hf⟩
  · intro pn
    have hbox := box_from_norm_vertices_eval
      [.obj [("x", .num (2/10)), ("y", .num (3/10))],
       .obj [("x", .num (4/10)), ("y", .num (35/100))]]
      [2/10, 4/10] [3/10, 35/100] rfl rfl (by simp) (by simp)
    have h1 : listMin [(2 : ℚ)/10, 4/10] = 2/10 := by norm_num [listMin, min_def]
    have h2 : listMin [(3 : ℚ)/10, 35/100] = 3/10 := by norm_num [listMin, min_def]
    have h3 : listMax [(2 : ℚ)/10, 4/10] = 4/10 := by norm_num [listMax, max_def]
    have h4 : listMax [(3 : ℚ)/10, 35/100] = 35/100 := by norm_num [listMax, max_def]
    rw [h1, h2, h3, h4] at hbox
    have hmain := processProp_poly pn "invoice_number"
      [("value", .str "A123"),
       ("bounding_poly", .obj [("normalized_vertices",
         .arr [.obj [("x", .num (2/10)), ("y", .num (3/10))],
               .obj [("x", .num (4/10)), ("y", .num (35/100))]])])]
      [.obj [("x", .num (2/10)), ("y", .num (3/10))],
       .obj [("x", .num (4/10)), ("y", .num (35/100))]]
      (2/10) (3/10) (4/10) (35/100) rfl (by simp) hbox
    rw [hmain]
    rfl

/-- C7 witness: the scalar, no-polygon, and scenario parts of the claim
theorem applied at concrete inputs, discharging each hypothesis there. -/
theorem C7_flatten_witness :
    processProp 3 "amount" (.num 5) = .ok ⟨"amount", .str (pyStr (.num 5)), none⟩ ∧
    processProp 3 "note" (.obj [("value", .str "x")])
      = .ok ⟨"note", (jlookup [("value", .str "x")] "value").getD .null, none⟩ ∧
    processProp 7 "invoice_number"
        (.obj [("value", .str "A123"),
          ("bounding_poly", .obj [("normalized_vertices",
            .arr [.obj [("x", .num (2/10)), ("y", .num (3/10))],
                  .obj [("x", .num (4/10)), ("y", .num (35/100))]])])])
      = .ok ⟨"invoice_number", .str "A123",
          some ⟨7, 2/10, 3/10, 4/10, 35/100⟩⟩ :=
  ⟨C7_flatten_fields.1 3 "amount" (.num 5) (fun kvs => by simp),
   C7_flatten_fields.2.2.1 3 "note" [("value", .str "x")] .null rfl
     (Or.inl (fun l => by simp)),
   C7_flatten_fields.2.2.2.2 7⟩

/-- C8 counterexample: a properties object whose metadata sits under the
variant key meta_data and carries full page information. The claim says
page metadata is extracted from every recognized variant; the code reads
page information only from the exact key "metadata", so no page record is
emitted (the exclusion from the fields does hold, hence both lists are
empty). -/
theorem C8_counterexample :
    processProps (.obj [("meta_data", .obj [("metaDataMap", .obj [("pageInfo",
        .obj [("page_number", .num 2), ("dimension", .obj [("width", .num 100),
          ("height", .num 200), ("unit", .str "px")])])])])])
      = .ok ([], []) := rfl

/-- C8 (amended): all four metadata key variants are excluded from field
extraction (no produced field is named by any of them), but page metadata
is read only from the exact key "metadata": when that key is absent the
page-information extraction yields the defaults with width and height 0,
and consequently no page record is emitted. -/
theorem C8_amended_meta_variants :
    (∀ pn kvs fs, fieldsOf pn kvs = .ok fs → ∀ f ∈ fs, f.name ∉ metaKeys) ∧
    (∀ kvs, jlookup kvs "metadata" = none →
      pageInfoOf (.obj kvs) = .ok (1, 0, 0, .str "pixels")) ∧
    (∀ kvs ps fs, jlookup kvs "metadata" = none →
      processProps (.obj kvs) = .ok (ps, fs) → ps = []) := by
  refine ⟨fieldsOf_names, pageInfoOf_no_metadata, ?_⟩
  intro kvs ps fs hnone hp
  obtain ⟨pn, w, ht, u, kvs2, hpi, ho, hf, hps⟩ := processProps_decomp _ _ _ hp
  have hcomb := (pageInfoOf_no_metadata kvs hnone).symm.trans hpi
  rw [Except.ok.injEq, Prod.mk.injEq, Prod.mk.injEq, Prod.mk.injEq] at hcomb
  obtain ⟨-, hw, -, -⟩ := hcomb
  rw [hps, if_neg]
  intro hcond
  exact hcond.1 hw.symm

/-- C8 witness: the amended theorem applied at concrete inputs, with the
fieldsOf, membership and lookup hypotheses discharged there. -/
theorem C8_amended_witness :
    ((⟨"amount", .str "5", none⟩ : FieldRec).name ∉ metaKeys) ∧
    pageInfoOf (.obj [("meta_data", .null)]) = .ok (1, 0, 0, .str "pixels") :=
  ⟨C8_amended_meta_variants.1 1 [("metaData", .null), ("amount", .str "5")]
      [⟨"amount", .str "5", none⟩] rfl ⟨"amount", .str "5", none⟩ (by simp),
   C8_amended_meta_variants.2.1 [("meta_data", .null)] rfl⟩

/-- C9 counterexample: first, a document metadata carrying page info with
width 0 yields no page record at all (the emission is filtered by the
width-and-height truthiness test), where the claim promises pass-through
with no filtering; second, page info without a unit entry yields a page
record with the invented default unit "pixels", where the claim promises
the supplied values with no defaulting. -/
theorem C9_counterexample :
    processProps (.obj [("metadata", .obj [("metaDataMap", .obj [("pageInfo",
        .obj [("page_number", .num 1), ("dimension", .obj [("width", .num 0),
          ("height", .num 5), ("unit", .str "pt")])])])])])
      = .ok ([], []) ∧
    processProps (.obj [("metadata", .obj [("metaDataMap", .obj [("pageInfo",
        .obj [("page_number", .num 2), ("dimension", .obj [("width", .num 100),
          ("height", .num 50)])])])])])
      = .ok ([⟨2, 100, 50, .str "pixels"⟩], []) :=
  ⟨rfl, rfl⟩


theorem processProps_meta_only (pi : JVal) (pn w h : Int) (u : JVal)
    (hpi : pageInfoOf (.obj [("metadata", pi)]) = .ok (pn, w, h, u)) :
    processProps (.obj [("metadata", pi)])
      = .ok (if w ≠ 0 ∧ h ≠ 0 then [⟨pn, w, h, u⟩] else [], []) := by
  unfold processProps
  rw [hpi, PyM_bind_ok]
  dsimp only
  rw [show objItems (.obj [("metadata", pi)]) = .ok [("metadata", pi)] from rfl,
    PyM_bind_ok,
    show fieldsOf pn [("metadata", pi)] = .ok [] from rfl, PyM_bind_ok]

/-- C9 (amended): a page record is emitted only when the int-coerced width
and height are both truthy (nonzero): a falsy width and a falsy height
each drop the record entirely; within the emitted case supplied truthy
values pass through unchanged, while a missing or falsy page_number
defaults to 1 and a missing or falsy unit defaults to "pixels". -/
theorem C9_amended_pageinfo (pn w h : Int) (u : String)
    (hpn : pn ≠ 0) (hw : w ≠ 0) (hh : h ≠ 0) (hu : u ≠ "") :
    pageInfoOf (.obj [("metadata", .obj [("metaDataMap", .obj [("pageInfo",
        .obj [("page_number", .num ((pn : ℚ))),
          ("dimension", .obj [("width", .num ((w : ℚ))),
            ("height", .num ((h : ℚ))), ("unit", .str u)])])])])])
      = .ok (pn, w, h, .str u) ∧
    processProps (.obj [("metadata", .obj [("metaDataMap", .obj [("pageInfo",
        .obj [("page_number", .num ((pn : ℚ))),
          ("dimension", .obj [("width", .num ((w : ℚ))),
            ("height", .num ((h : ℚ))), ("unit", .str u)])])])])])
      = .ok ([⟨pn, w, h, .str u⟩], []) ∧
    processProps (.obj [("metadata", .obj [("metaDataMap", .obj [("pageInfo",
        .obj [("page_number", .num 0),
          ("dimension", .obj [("width", .num ((w : ℚ))),
            ("height", .num ((h : ℚ))), ("unit", .str "")])])])])])
      = .ok ([⟨1, w, h, .str "pixels"⟩], []) ∧
    processProps (.obj [("metadata", .obj [("metaDataMap", .obj [("pageInfo",
        .obj [("dimension", .obj [("width", .num ((w : ℚ))),
          ("height", .num ((h : ℚ)))])])])])])
      = .ok ([⟨1, w, h, .str "pixels"⟩], []) ∧
    processProps (.obj [("metadata", .obj [("metaDataMap", .obj [("pageInfo",
        .obj [("page_number", .num ((pn : ℚ))),
          ("dimension", .obj [("width", .num 0),
            ("height", .num ((h : ℚ))), ("unit", .str u)])])])])])
      = .ok ([], []) ∧
    processProps (.obj [("metadata", .obj [("metaDataMap", .obj [("pageInfo",
        .obj [("page_number", .num ((pn : ℚ))),
          ("dimension", .obj [("width", .num ((w : ℚ))),
            ("height", .num 0), ("unit", .str u)])])])])])
      = .ok ([], []) := by
  have h1 : pageInfoOf (.obj [("metadata", .obj [("metaDataMap", .obj [("pageInfo",
        .obj [("page_number", .num ((pn : ℚ))),
          ("dimension", .obj [("width", .num ((w : ℚ))),
            ("height", .num ((h : ℚ))), ("unit", .str u)])])])])])
      = .ok (pn, w, h, .str u) := by
    simp +decide [pageInfoOf, dictGet, jlookup, PyM_bind_ok, pyOr, pyFalsy,
      pyInt, pyTrunc_intCast, pyTrunc_zero, Int.cast_eq_zero, hpn, hw, hh, hu]
  have h2 : pageInfoOf (.obj [("metadata", .obj [("metaDataMap", .obj [("pageInfo",
        .obj [("page_number", .num 0),
          ("dimension", .obj [("width", .num ((w : ℚ))),
            ("height", .num ((h : ℚ))), ("unit", .str "")])])])])])
      = .ok (1, w, h, .str "pixels") := by
    simp +decide [pageInfoOf, dictGet, jlookup, PyM_bind_ok, pyOr, pyFalsy,
      pyInt, pyTrunc_intCast, pyTrunc_zero, pyTrunc_one, Int.cast_eq_zero, hw, hh]
  have h3 : pageInfoOf (.obj [("metadata", .obj [("metaDataMap", .obj [("pageInfo",
        .obj [("dimension", .obj [("width", .num ((w : ℚ))),
          ("height", .num ((h : ℚ)))])])])])])
      = .ok (1, w, h, .str "pixels") := by
    simp +decide [pageInfoOf, dictGet, jlookup, PyM_bind_ok, pyOr, pyFalsy,
      pyInt, pyTrunc_intCast, pyTrunc_zero, pyTrunc_one, Int.cast_eq_zero, hw, hh]
  have h4 : pageInfoOf (.obj [("metadata", .obj [("metaDataMap", .obj [("pageInfo",
        .obj [("page_number", .num ((pn : ℚ))),
          ("dimension", .obj [("width", .num 0),
            ("height", .num ((h : ℚ))), ("unit", .str u)])])])])])
      = .ok (pn, 0, h, .str u) := by
    simp +decide [pageInfoOf, dictGet, jlookup, PyM_bind_ok, pyOr, pyFalsy,
      pyInt, pyTrunc_intCast, pyTrunc_zero, Int.cast_eq_zero, hpn, hh, hu]
  have h5 : pageInfoOf (.obj [("metadata", .obj [("metaDataMap", .obj [("pageInfo",
        .obj [("page_number", .num ((pn : ℚ))),
          ("dimension", .obj [("width", .num ((w : ℚ))),
            ("height", .num 0), ("unit", .str u)])])])])])
      = .ok (pn, w, 0, .str u) := by
    simp +decide [pageInfoOf, dictGet, jlookup, PyM_bind_ok, pyOr, pyFalsy,
      pyInt, pyTrunc_intCast, pyTrunc_zero, Int.cast_eq_zero, hpn, hw, hu]
  refine ⟨h1, ?_, ?_, ?_, ?_, ?_⟩
  · rw [processProps_meta_only _ _ _ _ _ h1, if_pos ⟨hw, hh⟩]
  · rw [processProps_meta_only _ _ _ _ _ h2, if_pos ⟨hw, hh⟩]
  · rw [processProps_meta_only _ _ _ _ _ h3, if_pos ⟨hw, hh⟩]
  · rw [processProps_meta_only _ _ _ _ _ h4, if_neg (fun hc => hc.1 rfl)]
  · rw [processProps_meta_only _ _ _ _ _ h5, if_neg (fun hc => hc.2 rfl)]

/-- C9 witness: the amended theorem at concrete values, discharging the
four truthiness hypotheses; it exercises the pass-through case, the
missing-entry defaulting case, and the falsy-height drop. -/
theorem C9_amended_witness :
    processProps (.obj [("metadata", .obj [("metaDataMap", .obj [("pageInfo",
        .obj [("page_number", .num (((2 : Int) : ℚ))),
          ("dimension", .obj [("width", .num (((100 : Int) : ℚ))),
            ("height", .num (((50 : Int) : ℚ))), ("unit", .str "px")])])])])])
      = .ok ([⟨2, 100, 50, .str "px"⟩], []) ∧
    processProps (.obj [("metadata", .obj [("metaDataMap", .obj [("pageInfo",
        .obj [("dimension", .obj [("width", .num (((100 : Int) : ℚ))),
          ("height", .num (((50 : Int) : ℚ)))])])])])])
      = .ok ([⟨1, 100, 50, .str "pixels"⟩], []) ∧
    processProps (.obj [("metadata", .obj [("metaDataMap", .obj [("pageInfo",
        .obj [("page_number", .num (((2 : Int) : ℚ))),
          ("dimension", .obj [("width", .num (((100 : Int) : ℚ))),
            ("height", .num 0), ("unit", .str "px")])])])])])
      = .ok ([], []) :=
  ⟨(C9_amended_pageinfo 2 100 50 "px" (by decide) (by decide) (by decide)
      (by decide)).2.1,
   (C9_amended_pageinfo 2 100 50 "px" (by decide) (by decide) (by decide)
      (by decide)).2.2.2.1,
   (C9_amended_pageinfo 2 100 50 "px" (by decide) (by decide) (by decide)
      (by decide)).2.2.2.2.2⟩

/-- C10: unparseable JSON yields the invalid-JSON 400 error; an array root
is processed by taking its first element as the root, the empty array
behaving as an empty root; and any root object whose documents entry is
missing or falsy (in particular an empty list) yields the
missing-documents 400 error rather than an empty success. -/
theorem C10_normalize_input :
    (normalize_docai none = .ok (.fail 400 "invalid JSON")) ∧
    (∀ x xs, normalize_docai (some (.arr (x :: xs))) = processRoot x) ∧
    (normalize_docai (some (.arr [])) = processRoot (.obj [])) ∧
    (normalize_docai (some (.arr []))
      = .ok (.fail 400 "missing documents[]")) ∧
    (∀ kvs, pyFalsy ((jlookup kvs "documents").getD (.arr [])) = true →
      processRoot (.obj kvs) = .ok (.fail 400 "missing documents[]")) := by
  refine ⟨rfl, fun x xs => rfl, rfl, rfl, ?_⟩
  intro kvs h
  unfold processRoot
  rw [show dictGet (.obj kvs) "documents" (.arr [])
    = .ok ((jlookup kvs "documents").getD (.arr [])) from rfl, PyM_bind_ok, h]
  rfl

/-- C10 witness: the array-root and falsy-documents parts of the theorem
applied at concrete inputs, discharging the falsiness hypothesis there. -/
theorem C10_normalize_witness :
    normalize_docai (some (.arr [.obj [("documents", .arr [])], .null]))
      = processRoot (.obj [("documents", .arr [])]) ∧
    processRoot (.obj [("documents", .arr [])])
      = .ok (.fail 400 "missing documents[]") :=
  ⟨C10_normalize_input.2.1 (.obj [("documents", .arr [])]) [.null],
   C10_normalize_input.2.2.2.2 [("documents", .arr [])] rfl⟩
